import Mathlib

/-!
Shallow embedding of the moving-average trading-strategy engine
(MovingAverage/SMA.py, MovingAverage/EMA.py) and proofs of the frozen
specification claims.

Modelling conventions:
* a float cell that may be NaN is an `Option ℚ` (`none` = NaN); the pandas
  comparison semantics are embedded explicitly: NaN > x and NaN == x are false,
  NaN != x is true, and arithmetic on NaN yields NaN;
* a pandas Series is a `List` of cells, a DataFrame a `Frame` of named columns;
* a Python exception escaping a function is an `Except`/`Option` failure;
* window arguments are integers (`Int`), as at every call site of the
  repository; the validation raised inside the pandas primitives
  (`rolling`/`ewm` raise ValueError on a non-positive window/span) is part of
  the semantics of the source lines and is embedded as `IndicatorError`.
-/

set_option autoImplicit false

namespace Trading

/-- Failure of a pandas indicator primitive on a bad window argument
(a ValueError in pandas; the spec's error taxonomy names it InvalidParameter). -/
inductive IndicatorError where
  | invalidParameter
deriving DecidableEq, Repr

/-- Arithmetic mean of a list of rationals (division by zero yields 0 in `ℚ`,
only ever applied to nonempty windows). -/
def meanQ (xs : List ℚ) : ℚ := xs.sum / xs.length

/-- The trailing window of width at most `w` ending at index `i`:
elements `prices[i+1-w .. i]`; natural subtraction makes the window shrink
near the start of the series. -/
def trailingWindow (prices : List ℚ) (w : Nat) (i : Nat) : List ℚ :=
  (prices.take (i + 1)).drop (i + 1 - w)

/-- SMA.py line 18: `pd.Series(prices).rolling(window=window, min_periods=1).mean()`.
pandas raises ValueError unless the window is a positive integer; otherwise the
value at index `i` is the mean of the trailing window of width `min (i+1) w`. -/
def calculate_sma (prices : List ℚ) (window : Int) : Except IndicatorError (List ℚ) :=
  if window ≤ 0 then .error .invalidParameter
  else .ok ((List.range prices.length).map fun i => meanQ (trailingWindow prices window.toNat i))

/-- EMA.py line 259 (inside compare_ema_vs_sma):
`data['Close'].rolling(window=sma_window).mean()` — no `min_periods`, so pandas
defaults `min_periods` to the window and the first `window - 1` cells are NaN. -/
def rollingMeanFull (prices : List ℚ) (window : Int) :
    Except IndicatorError (List (Option ℚ)) :=
  if window ≤ 0 then .error .invalidParameter
  else .ok ((List.range prices.length).map fun i =>
    if i + 1 < window.toNat then none
    else some (meanQ (trailingWindow prices window.toNat i)))

/-- The recursive smoothing pass of `ewm(span, adjust=False).mean()`: given the
previous smoothed value, each new price `x` yields `(1-a)·prev + a·x`. -/
def emaFrom (a : ℚ) (prev : ℚ) : List ℚ → List ℚ
  | [] => []
  | x :: xs => ((1 - a) * prev + a * x) :: emaFrom a ((1 - a) * prev + a * x) xs

/-- EMA.py line 16: `pd.Series(prices).ewm(span=window, adjust=False).mean()`.
pandas raises ValueError unless span ≥ 1; with `a = 2/(span+1)` the result is
`ema[0] = prices[0]` and `ema[i] = (1-a)·ema[i-1] + a·prices[i]`. -/
def calculate_ema (prices : List ℚ) (window : Int) : Except IndicatorError (List ℚ) :=
  if window < 1 then .error .invalidParameter
  else
    match prices with
    | [] => .ok []
    | p :: ps => .ok (p :: emaFrom (2 / ((window : ℚ) + 1)) p ps)

/-- One cell of the signal assignment of SMA.py lines 53-55 (and EMA.py 79-81,
262-268): start from 0, set 1 where the first column exceeds the second, -1
where it is below; a NaN on either side satisfies neither strict comparison,
so the signal stays 0. -/
def crossSignal (a b : Option ℚ) : Int :=
  match a, b with
  | some x, some y => if x > y then 1 else if x < y then -1 else 0
  | _, _ => 0

/-- Embedding of `Series.diff()` on an integer signal column: NaN (none) at
index 0, then the first difference. -/
def diffInt (s : List Int) : List (Option Int) :=
  match s with
  | [] => []
  | x :: xs => none :: List.zipWith (fun b a => some (b - a)) xs (x :: xs)

/-- SMA.py line 59 / EMA.py line 85: `Golden_Cross = (Position == 2)`;
a NaN cell compares unequal, so index 0 never fires. -/
def goldenFlags (s : List Int) : List Bool :=
  (diffInt s).map (fun d => d == some 2)

/-- SMA.py line 60 / EMA.py line 86: `Death_Cross = (Position == -2)`. -/
def deathFlags (s : List Int) : List Bool :=
  (diffInt s).map (fun d => d == some (-2))

/-- Embedding of `Series.pct_change()`: NaN at index 0, then
`close[i]/close[i-1] - 1`. -/
def pctChange (close : List ℚ) : List (Option ℚ) :=
  match close with
  | [] => []
  | c :: cs => none :: List.zipWith (fun cur prev => some (cur / prev - 1)) cs (c :: cs)

/-- Embedding of `Series.shift(1)` on an integer signal column: NaN at index 0,
the previous cell afterwards; the last cell drops off the end. -/
def shift1 (s : List Int) : List (Option Int) :=
  match s with
  | [] => []
  | _ :: _ => none :: (s.dropLast.map some)

/-- NaN-propagating product of two float cells. -/
def optMul (a b : Option ℚ) : Option ℚ :=
  match a, b with
  | some x, some y => some (x * y)
  | _, _ => none

/-- SMA.py line 99 / EMA.py line 150:
`Strategy_Returns = Signal.shift(1) * Close.pct_change()`. -/
def strategyReturns (close : List ℚ) (signal : List Int) : List (Option ℚ) :=
  List.zipWith (fun s r => optMul (s.map (fun z => (z : ℚ))) r)
    (shift1 signal) (pctChange close)

/-- Number of rows selected by the mask `Strategy_Returns != 0`: in pandas a NaN
cell compares not-equal to 0 and is therefore counted. -/
def neZeroCount (xs : List (Option ℚ)) : Nat :=
  xs.countP (fun x => match x with | none => true | some v => !(v == 0))

/-- Number of rows selected by the mask `Strategy_Returns > 0`: a NaN cell never
satisfies the strict comparison. -/
def posCount (xs : List (Option ℚ)) : Nat :=
  xs.countP (fun x => match x with | none => false | some v => decide (0 < v))

/-- SMA.py line 114: the win-rate division is unguarded; a zero denominator
raises ZeroDivisionError, modelled as `none`. -/
def winRateSmaStyle (sr : List (Option ℚ)) : Option ℚ :=
  if neZeroCount sr = 0 then none
  else some ((posCount sr : ℚ) / (neZeroCount sr : ℚ))

/-- EMA.py line 177: the win-rate division is guarded and yields 0 when the
denominator is 0. -/
def winRateEmaStyle (sr : List (Option ℚ)) : ℚ :=
  if 0 < neZeroCount sr then (posCount sr : ℚ) / (neZeroCount sr : ℚ) else 0

/-- Embedding of `Series.cumprod()` with its default skipna semantics: NaN cells
stay NaN and the running product skips over them. -/
def cumprodSkipna : ℚ → List (Option ℚ) → List (Option ℚ)
  | _, [] => []
  | acc, none :: rest => none :: cumprodSkipna acc rest
  | acc, some v :: rest => some (acc * v) :: cumprodSkipna (acc * v) rest

/-- SMA.py line 102 / EMA.py line 153:
`(1 + strategy_returns).cumprod().iloc[-1] - 1`; `.iloc[-1]` raises IndexError
on an empty series (the outer `none`), and a NaN last cell gives a NaN total
return (the inner `none`). -/
def totalReturn (sr : List (Option ℚ)) : Option (Option ℚ) :=
  ((cumprodSkipna 1 (sr.map (fun x => x.map (fun v => 1 + v)))).getLast?).map
    (fun t => t.map (fun v => v - 1))

/-- The defined (non-NaN) cells of a column, in order; pandas reductions such as
`std` skip the NaN cells. -/
def definedVals (xs : List (Option ℚ)) : List ℚ := xs.filterMap id

/-- Sample variance with the pandas default ddof = 1 over the given values;
NaN (none) when fewer than two values are present. -/
def sampleVar (xs : List ℚ) : Option ℚ :=
  if xs.length ≤ 1 then none
  else some ((xs.map (fun x => (x - meanQ xs) ^ 2)).sum / ((xs.length : ℚ) - 1))

/-- EMA.py lines 161-162: `Series.std() * (252 ** 0.5)` — sample standard
deviation of the defined cells, annualized by the trading-day constant. -/
noncomputable def annualizedVol (sr : List (Option ℚ)) : Option ℝ :=
  (sampleVar (definedVals sr)).map (fun v => Real.sqrt (v : ℝ) * Real.sqrt 252)

/-- EMA.py line 165 (and 166):
`(total_return * 252) / volatility if volatility != 0 else 0`.
A NaN volatility satisfies `!= 0` and the division then yields NaN; a NaN total
return also propagates through the division. -/
noncomputable def sharpeRatio (totalRet : Option ℚ) (vol : Option ℝ) : Option ℝ :=
  match vol with
  | none => none
  | some v => if v = 0 then some 0 else totalRet.map (fun t => ((t : ℝ) * 252) / v)

/-- The dictionary returned by SMA.py analyze_sma_performance (lines 109-115). -/
structure SmaReport where
  total_return : Option ℚ
  buy_hold_return : ℚ
  golden_crosses : Nat
  death_crosses : Nat
  win_rate : ℚ

/-- SMA.py lines 83-115: detect_crossover_signals derives `Signal` from the two
SMA columns, the one-period-lagged signal times the close-to-close return gives
`Strategy_Returns`, and the metrics are read off.  The `.iloc[-1]` of the
cumulative product raises IndexError on an empty frame, and the unguarded
win-rate division raises ZeroDivisionError when its denominator is 0; either
exception is the `none` result. -/
def analyzeSmaPerformance (close : List ℚ) (shortC longC : List (Option ℚ)) :
    Option SmaReport :=
  let signal := List.zipWith crossSignal shortC longC
  let sr := strategyReturns close signal
  match totalReturn sr, winRateSmaStyle sr, close.head?, close.getLast? with
  | some tr, some wr, some c0, some cL =>
      some { total_return := tr
             buy_hold_return := cL / c0 - 1
             golden_crosses := (goldenFlags signal).count true
             death_crosses := (deathFlags signal).count true
             win_rate := wr }
  | _, _, _, _ => none

/-- The dictionary returned by EMA.py analyze_ema_performance (lines 168-178). -/
structure EmaReport where
  total_return : Option ℚ
  buy_hold_return : ℚ
  golden_crosses : Nat
  death_crosses : Nat
  strategy_volatility : Option ℝ
  buy_hold_volatility : Option ℝ
  strategy_sharpe : Option ℝ
  buy_hold_sharpe : Option ℝ
  win_rate : ℚ

/-- EMA.py lines 134-178: the EMA analogue of analyze_sma_performance, with the
annualized volatilities and guarded Sharpe ratios of lines 161-166 and the
guarded win rate of line 177.  `.iloc[-1]` on an empty frame (line 153) raises
IndexError, the `none` result. -/
noncomputable def analyzeEmaPerformance (close : List ℚ)
    (shortC longC : List (Option ℚ)) : Option EmaReport :=
  let signal := List.zipWith crossSignal shortC longC
  let sr := strategyReturns close signal
  let rets := pctChange close
  match totalReturn sr, close.head?, close.getLast? with
  | some tr, some c0, some cL =>
      some { total_return := tr
             buy_hold_return := cL / c0 - 1
             golden_crosses := (goldenFlags signal).count true
             death_crosses := (deathFlags signal).count true
             strategy_volatility := annualizedVol sr
             buy_hold_volatility := annualizedVol rets
             strategy_sharpe := sharpeRatio tr (annualizedVol sr)
             buy_hold_sharpe := sharpeRatio (some (cL / c0 - 1)) (annualizedVol rets)
             win_rate := winRateEmaStyle sr }
  | _, _, _ => none

/-- A pandas DataFrame: the Close price column plus the named derived columns,
in insertion order. -/
structure Frame where
  close : List ℚ
  cols : List (String × List (Option ℚ))
deriving DecidableEq

/-- Column lookup by name (first match in insertion order). -/
def lookupCol : List (String × List (Option ℚ)) → String → Option (List (Option ℚ))
  | [], _ => none
  | p :: ps, n => if p.1 = n then some p.2 else lookupCol ps n

/-- Column lookup by name. -/
def Frame.getCol (f : Frame) (name : String) : Option (List (Option ℚ)) :=
  lookupCol f.cols name

/-- In-place column assignment on the underlying association list: replace the
column if the name exists, append it otherwise. -/
def setColList (name : String) (v : List (Option ℚ)) :
    List (String × List (Option ℚ)) → List (String × List (Option ℚ))
  | [] => [(name, v)]
  | p :: ps => if p.1 = name then (name, v) :: ps else p :: setColList name v ps

/-- Embedding of `data[name] = v`, in-place column assignment on a DataFrame. -/
def Frame.setCol (f : Frame) (name : String) (v : List (Option ℚ)) : Frame :=
  { f with cols := setColList name v f.cols }

/-- EMA.py lines 245-273, the column writes of compare_ema_vs_sma: unlike every
other operation of the engine this function performs no `.copy()` and assigns
its seven columns directly into the caller's DataFrame; this definition is the
state of that DataFrame after the call.  (Lines 276-286 then read the returned
comparison dictionary off these freshly written columns, see
`compareEmaVsSmaMetrics`.)  A ValueError raised by a pandas primitive
propagates immediately, leaving the columns written so far in place. -/
def compareEmaVsSmaFrame (f : Frame) (emaW smaW : Int) : Frame :=
  match calculate_ema f.close emaW with
  | .error _ => f
  | .ok emaCol =>
    let f1 := f.setCol ("EMA_" ++ toString emaW) (emaCol.map some)
    match rollingMeanFull f.close smaW with
    | .error _ => f1
    | .ok smaCol =>
      let f2 := f1.setCol ("SMA_" ++ toString smaW) smaCol
      let emaSig := List.zipWith (fun c e => crossSignal (some c) (some e)) f.close emaCol
      let f3 := f2.setCol "EMA_Signal" (emaSig.map (fun z => some ((z : Int) : ℚ)))
      let smaSig := List.zipWith (fun c m => crossSignal (some c) m) f.close smaCol
      let f4 := f3.setCol "SMA_Signal" (smaSig.map (fun z => some ((z : Int) : ℚ)))
      let rets := pctChange f.close
      let f5 := f4.setCol "Returns" rets
      let emaRet := List.zipWith (fun s r => optMul (s.map (fun z => (z : ℚ))) r)
        (shift1 emaSig) rets
      let f6 := f5.setCol "EMA_Returns" emaRet
      let smaRet := List.zipWith (fun s r => optMul (s.map (fun z => (z : ℚ))) r)
        (shift1 smaSig) rets
      f6.setCol "SMA_Returns" smaRet

/-- The comparison dictionary of EMA.py lines 279-286. -/
structure EmaVsSmaComparison where
  ema_return : Option ℚ
  sma_return : Option ℚ
  ema_volatility : Option ℝ
  sma_volatility : Option ℝ
  ema_wins : Nat
  sma_wins : Nat

/-- EMA.py lines 276-286: the returned dictionary of compare_ema_vs_sma, read
off the return columns just written into the (mutated) DataFrame; `none` when
`.iloc[-1]` raises on an empty frame. -/
noncomputable def compareEmaVsSmaMetrics (f : Frame) (emaW smaW : Int) :
    Option EmaVsSmaComparison :=
  let post := compareEmaVsSmaFrame f emaW smaW
  let emaRet := (post.getCol "EMA_Returns").getD []
  let smaRet := (post.getCol "SMA_Returns").getD []
  match totalReturn emaRet, totalReturn smaRet with
  | some etr, some str =>
      some { ema_return := etr
             sma_return := str
             ema_volatility := annualizedVol emaRet
             sma_volatility := annualizedVol smaRet
             ema_wins := posCount emaRet
             sma_wins := posCount smaRet }
  | _, _ => none

/-- Modelled from the spec wording of section 4.1 (for the refinement check of
the SMA): the value at index `i` is the arithmetic mean of
`prices[max(0, i-window+1) .. i]`, a window of `min w (i+1)` elements. -/
def smaSpecValue (prices : List ℚ) (w : Nat) (i : Nat) : ℚ :=
  meanQ ((prices.drop (i + 1 - w)).take (min w (i + 1)))

instance {ε α : Type} [DecidableEq ε] [DecidableEq α] : DecidableEq (Except ε α) :=
  fun x y =>
    match x, y with
    | .error a, .error b =>
        if h : a = b then .isTrue (by rw [h])
        else .isFalse (fun hc => h (Except.error.inj hc))
    | .ok a, .ok b =>
        if h : a = b then .isTrue (by rw [h])
        else .isFalse (fun hc => h (Except.ok.inj hc))
    | .error _, .ok _ => .isFalse (fun hc => Except.noConfusion hc)
    | .ok _, .error _ => .isFalse (fun hc => Except.noConfusion hc)

/-! ### Helper lemmas about the embedded series operations -/

theorem emaFrom_length (a : ℚ) : ∀ (prev : ℚ) (xs : List ℚ),
    (emaFrom a prev xs).length = xs.length
  | _, [] => rfl
  | prev, x :: xs => by
      simp only [emaFrom, List.length_cons, emaFrom_length a _ xs]

theorem pctChange_length (c : List ℚ) : (pctChange c).length = c.length := by
  cases c with
  | nil => rfl
  | cons c₀ cs => simp [pctChange]

theorem shift1_length (s : List Int) : (shift1 s).length = s.length := by
  cases s with
  | nil => rfl
  | cons s₀ ss => simp [shift1]

theorem diffInt_length (s : List Int) : (diffInt s).length = s.length := by
  cases s with
  | nil => rfl
  | cons s₀ ss => simp [diffInt]

theorem strategyReturns_length (close : List ℚ) (signal : List Int) :
    (strategyReturns close signal).length = min signal.length close.length := by
  simp [strategyReturns, shift1_length, pctChange_length]

theorem cumprodSkipna_length : ∀ (acc : ℚ) (xs : List (Option ℚ)),
    (cumprodSkipna acc xs).length = xs.length
  | _, [] => rfl
  | acc, none :: rest => by simp [cumprodSkipna, cumprodSkipna_length acc rest]
  | acc, some v :: rest => by simp [cumprodSkipna, cumprodSkipna_length (acc * v) rest]

theorem totalReturn_isSome {sr : List (Option ℚ)} (h : sr ≠ []) :
    ∃ t, totalReturn sr = some t := by
  have hne : cumprodSkipna 1 (sr.map (fun x => x.map (fun v => 1 + v))) ≠ [] := by
    intro hcon
    have := cumprodSkipna_length 1 (sr.map (fun x => x.map (fun v => 1 + v)))
    rw [hcon] at this
    simp at this
    exact h (List.eq_nil_of_length_eq_zero this.symm)
  obtain ⟨t, ht⟩ := Option.isSome_iff_exists.mp (List.getLast?_isSome.mpr hne)
  exact ⟨t.map (fun v => v - 1), by simp [totalReturn, ht]⟩

theorem shift1_succ (s : List Int) (i : Nat) :
    (shift1 s)[i + 1]? =
      if i + 1 < s.length then some (some (s.getD i 0)) else none := by
  cases s with
  | nil => simp [shift1]
  | cons s₀ ss =>
      simp only [shift1, List.getElem?_cons_succ, List.getElem?_map,
        List.getElem?_dropLast, List.length_cons]
      by_cases h : i < ss.length
      · rw [if_pos (by omega), if_pos (by omega)]
        have h2 : (s₀ :: ss)[i]? = some ((s₀ :: ss).getD i 0) := by
          rw [List.getD_eq_getElem?_getD,
            List.getElem?_eq_getElem (show i < (s₀ :: ss).length by simp; omega)]
          rfl
        rw [h2]
        rfl
      · rw [if_neg (by omega), if_neg (by omega)]
        rfl

theorem pctChange_succ (c : List ℚ) (i : Nat) :
    (pctChange c)[i + 1]? =
      if i + 1 < c.length then some (some (c.getD (i + 1) 0 / c.getD i 0 - 1))
      else none := by
  cases c with
  | nil => simp [pctChange]
  | cons c₀ cs =>
      simp only [pctChange, List.getElem?_cons_succ]
      rw [List.getElem?_zipWith']
      by_cases h : i < cs.length
      · rw [if_pos (by simp; omega)]
        have h1 : cs[i]? = some cs[i] := List.getElem?_eq_getElem h
        have h2 : (c₀ :: cs)[i]? = some ((c₀ :: cs).getD i 0) := by
          rw [List.getElem?_eq_getElem (by simp; omega), List.getD_eq_getElem?_getD,
            List.getElem?_eq_getElem (by simp; omega)]
          rfl
        rw [h1, h2]
        simp [List.getD_eq_getElem?_getD, List.getElem?_eq_getElem h]
      · rw [if_neg (by simp; omega), List.getElem?_eq_none (by simpa using h)]
        rfl

theorem diffInt_succ (s : List Int) (i : Nat) :
    (diffInt s)[i + 1]? =
      if i + 1 < s.length then some (some (s.getD (i + 1) 0 - s.getD i 0))
      else none := by
  cases s with
  | nil => simp [diffInt]
  | cons s₀ ss =>
      simp only [diffInt, List.getElem?_cons_succ]
      rw [List.getElem?_zipWith']
      by_cases h : i < ss.length
      · have h1 : ss[i]? = some ss[i] := List.getElem?_eq_getElem h
        have h2 : (s₀ :: ss)[i]? = some ((s₀ :: ss).getD i 0) := by
          rw [List.getElem?_eq_getElem (by simp; omega), List.getD_eq_getElem?_getD,
            List.getElem?_eq_getElem (by simp; omega)]
          rfl
        rw [if_pos (by simp; omega), h1, h2]
        simp [List.getD_eq_getElem?_getD, List.getElem?_eq_getElem h,
          List.getElem?_eq_getElem (show i + 1 < (s₀ :: ss).length by simp; omega)]
      · rw [if_neg (by simp; omega), List.getElem?_eq_none (by simpa using h)]
        rfl

theorem strategyReturns_cons (c₀ : ℚ) (cs : List ℚ) (s₀ : Int) (ss : List Int) :
    ∃ t, strategyReturns (c₀ :: cs) (s₀ :: ss) = none :: t :=
  ⟨_, rfl⟩

theorem strategyReturns_getElem? (close : List ℚ) (signal : List Int) (i : Nat) :
    (strategyReturns close signal)[i]? =
      (((shift1 signal)[i]?).map
          (fun s r => optMul (s.map (fun z => (z : ℚ))) r)).bind
        fun g => ((pctChange close)[i]?).map g := by
  simp [strategyReturns, List.getElem?_zipWith']

theorem neZeroCount_cons_none (xs : List (Option ℚ)) :
    neZeroCount (none :: xs) = neZeroCount xs + 1 := by
  simp [neZeroCount, List.countP_cons]

theorem posCount_cons_none (xs : List (Option ℚ)) :
    posCount (none :: xs) = posCount xs := by
  simp [posCount, List.countP_cons]

theorem trailingWindow_eq_specWindow (prices : List ℚ) (w i : Nat) :
    trailingWindow prices w i = (prices.drop (i + 1 - w)).take (min w (i + 1)) := by
  unfold trailingWindow
  rw [List.take_drop]
  rw [show i + 1 - w + min w (i + 1) = i + 1 from by omega]

theorem calculate_sma_ok (prices : List ℚ) (w : Int) (hw : 0 < w) :
    calculate_sma prices w =
      .ok ((List.range prices.length).map fun i =>
        meanQ (trailingWindow prices w.toNat i)) := by
  simp [calculate_sma, show ¬w ≤ 0 by omega]

theorem emaFrom_getElem? (a : ℚ) : ∀ (xs : List ℚ) (prev : ℚ) (i : Nat),
    i < xs.length →
    (prev :: emaFrom a prev xs)[i + 1]? =
      some ((1 - a) * (prev :: emaFrom a prev xs).getD i 0 + a * xs.getD i 0)
  | [], _, i, h => by simp at h
  | x :: xs, prev, 0, _ => by simp [emaFrom]
  | x :: xs, prev, i + 1, h => by
      have ih := emaFrom_getElem? a xs ((1 - a) * prev + a * x) i (by simpa using h)
      show (prev :: emaFrom a prev (x :: xs))[i + 1 + 1]? = _
      rw [show emaFrom a prev (x :: xs) =
        ((1 - a) * prev + a * x) :: emaFrom a ((1 - a) * prev + a * x) xs from rfl]
      rw [List.getElem?_cons_succ, ih]
      simp [List.getD_cons_succ]

/-! ### Claim theorems -/

/-- C2: a window argument that is not a positive integer makes both indicator
operations, calculate_sma and calculate_ema, fail fast with the InvalidParameter
error (the ValueError raised inside the pandas rolling/ewm primitives), never
silently clamping the window; a positive window always yields a full-length
series. -/
theorem indicator_window_validation (prices : List ℚ) (w : Int) :
    (w ≤ 0 → calculate_sma prices w = .error .invalidParameter ∧
       calculate_ema prices w = .error .invalidParameter) ∧
    (0 < w → (∃ l, calculate_sma prices w = .ok l ∧ l.length = prices.length) ∧
       (∃ l, calculate_ema prices w = .ok l ∧ l.length = prices.length)) := by
  constructor
  · intro hw
    constructor
    · simp [calculate_sma, hw]
    · simp [calculate_ema, show w < 1 by omega]
  · intro hw
    constructor
    · exact ⟨_, calculate_sma_ok prices w hw, by simp⟩
    · cases prices with
      | nil => exact ⟨[], by simp [calculate_ema, show ¬w < 1 by omega], rfl⟩
      | cons p ps =>
          exact ⟨p :: emaFrom (2 / ((w : ℚ) + 1)) p ps,
            by simp [calculate_ema, show ¬w < 1 by omega],
            by simp [emaFrom_length]⟩

theorem indicator_window_validation_witness :
    calculate_sma [(10 : ℚ), 11] 0 = .error .invalidParameter ∧
    calculate_ema [(10 : ℚ), 11] (-3) = .error .invalidParameter :=
  ⟨((indicator_window_validation [10, 11] 0).1 (by decide)).1,
   ((indicator_window_validation [10, 11] (-3)).1 (by decide)).2⟩

/-- C3 as stated is false: inside compare_ema_vs_sma the SMA of line 259 has no
min_periods, so on prices [10, 11] with window 2 it is undefined (NaN) at
index 0, while the claimed shrinking-window value there is mean [10] = 10. -/
theorem harness_sma_undefined_at_start :
    rollingMeanFull [(10 : ℚ), 11] 2 = .ok [none, some (21 / 2)] ∧
    smaSpecValue [(10 : ℚ), 11] 2 0 = 10 := by
  constructor
  · rw [rollingMeanFull, if_neg (by omega)]
    norm_num [List.range_succ, meanQ, trailingWindow]
  · norm_num [smaSpecValue, meanQ]

/-- C3 amended: calculate_sma (used by every SMA pipeline of SMA.py) has the
claimed shrinking-window trailing-mean value at every index of the series, but
the SMA computed inside compare_ema_vs_sma (EMA.py line 259) agrees with that
value only from index window-1 on and is undefined (NaN) at the earlier
indices. -/
theorem sma_trailing_mean (prices : List ℚ) (w : Int) (hw : 0 < w) :
    (∃ l, calculate_sma prices w = .ok l ∧ l.length = prices.length ∧
       ∀ i, i < prices.length → l[i]? = some (smaSpecValue prices w.toNat i)) ∧
    (∃ l, rollingMeanFull prices w = .ok l ∧ l.length = prices.length ∧
       ∀ i, i < prices.length →
         l[i]? = some (if i + 1 < w.toNat then none
                       else some (smaSpecValue prices w.toNat i))) := by
  have hval : ∀ i, meanQ (trailingWindow prices w.toNat i) = smaSpecValue prices w.toNat i := by
    intro i
    rw [smaSpecValue, trailingWindow_eq_specWindow]
  constructor
  · refine ⟨_, calculate_sma_ok prices w hw, by simp, ?_⟩
    intro i hi
    simp [List.getElem?_range hi, hval i]
  · have hok : rollingMeanFull prices w =
        .ok ((List.range prices.length).map fun i =>
          if i + 1 < w.toNat then none
          else some (meanQ (trailingWindow prices w.toNat i))) := by
      rw [rollingMeanFull, if_neg (by omega)]
    refine ⟨_, hok, by simp, ?_⟩
    intro i hi
    rw [List.getElem?_map, List.getElem?_range hi, Option.map_some', hval i]

theorem sma_trailing_mean_witness :
    calculate_sma [(10 : ℚ), 11, 12] 2 ≠ .error .invalidParameter := by
  obtain ⟨⟨l, hl, -, -⟩, -⟩ := sma_trailing_mean [10, 11, 12] 2 (by decide)
  simp [hl]

/-- C7: for a positive window and nonempty prices the EMA satisfies the
adjust=false recursion exactly: ema[0] = prices[0] and
ema[i] = a·prices[i] + (1-a)·ema[i-1] with a = 2/(window+1). -/
theorem ema_recursive_form (prices : List ℚ) (w : Int) (hw : 0 < w)
    (hne : prices ≠ []) :
    ∃ l, calculate_ema prices w = .ok l ∧ l.length = prices.length ∧
      l[0]? = prices[0]? ∧
      ∀ i, 1 ≤ i → i < prices.length →
        l[i]? = some ((2 / ((w : ℚ) + 1)) * prices.getD i 0 +
          (1 - 2 / ((w : ℚ) + 1)) * l.getD (i - 1) 0) := by
  cases prices with
  | nil => exact absurd rfl hne
  | cons p ps =>
      refine ⟨p :: emaFrom (2 / ((w : ℚ) + 1)) p ps, ?_, ?_, ?_, ?_⟩
      · simp [calculate_ema, show ¬w < 1 by omega]
      · simp [emaFrom_length]
      · simp
      · intro i h1 h2
        obtain ⟨j, rfl⟩ : ∃ j, i = j + 1 := ⟨i - 1, by omega⟩
        rw [emaFrom_getElem? (2 / ((w : ℚ) + 1)) ps p j (by simpa using h2)]
        simp only [List.getD_cons_succ, Nat.add_sub_cancel]
        congr 1
        ring

theorem ema_recursive_form_witness :
    calculate_ema [(10 : ℚ), 11, 12] 3 ≠ .error .invalidParameter := by
  obtain ⟨l, hl, -, -⟩ := ema_recursive_form [10, 11, 12] 3 (by decide) (by decide)
  simp [hl]

theorem goldenFlags_zero (s : List Int) (h : s ≠ []) :
    (goldenFlags s)[0]? = some false := by
  cases s with
  | nil => exact absurd rfl h
  | cons x xs =>
      simp only [goldenFlags, diffInt, List.map_cons, List.getElem?_cons_zero]
      rfl

theorem deathFlags_zero (s : List Int) (h : s ≠ []) :
    (deathFlags s)[0]? = some false := by
  cases s with
  | nil => exact absurd rfl h
  | cons x xs =>
      simp only [deathFlags, diffInt, List.map_cons, List.getElem?_cons_zero]
      rfl

theorem goldenFlags_getD (s : List Int) (i : Nat) (h : i + 1 < s.length) :
    (goldenFlags s).getD (i + 1) false =
      (s.getD (i + 1) 0 - s.getD i 0 == 2) := by
  rw [List.getD_eq_getElem?_getD, goldenFlags, List.getElem?_map, diffInt_succ,
    if_pos h]
  rfl

theorem deathFlags_getD (s : List Int) (i : Nat) (h : i + 1 < s.length) :
    (deathFlags s).getD (i + 1) false =
      (s.getD (i + 1) 0 - s.getD i 0 == -2) := by
  rw [List.getD_eq_getElem?_getD, deathFlags, List.getElem?_map, diffInt_succ,
    if_pos h]
  rfl

theorem getD_mem_of_lt {s : List Int} {i : Nat} (h : i < s.length) :
    s.getD i 0 ∈ s := by
  have e : s.getD i 0 = s[i] := by
    rw [List.getD_eq_getElem?_getD, List.getElem?_eq_getElem h]
    rfl
  rw [e]
  exact List.getElem_mem h

/-- C8: crossover events come from the first difference of the signal: no event
fires at index 0 (the NaN of Series.diff), the golden-cross flag at index i
holds exactly when signal[i] - signal[i-1] = 2 and the death-cross flag exactly
when that difference is -2, and a magnitude-1 transition never fires either
flag: only a full -1 to +1 flip in one step counts. -/
theorem crossover_full_flip_only (signal : List Int)
    (_hdom : ∀ s ∈ signal, s = -1 ∨ s = 0 ∨ s = 1) :
    (signal ≠ [] → (goldenFlags signal)[0]? = some false ∧
       (deathFlags signal)[0]? = some false) ∧
    (∀ i, i + 1 < signal.length →
      ((goldenFlags signal).getD (i + 1) false = true ↔
         signal.getD (i + 1) 0 - signal.getD i 0 = 2) ∧
      ((deathFlags signal).getD (i + 1) false = true ↔
         signal.getD (i + 1) 0 - signal.getD i 0 = -2) ∧
      ((signal.getD (i + 1) 0 - signal.getD i 0 = 1 ∨
        signal.getD (i + 1) 0 - signal.getD i 0 = -1) →
        (goldenFlags signal).getD (i + 1) false = false ∧
        (deathFlags signal).getD (i + 1) false = false)) := by
  constructor
  · intro h
    exact ⟨goldenFlags_zero signal h, deathFlags_zero signal h⟩
  · intro i h
    rw [goldenFlags_getD signal i h, deathFlags_getD signal i h]
    refine ⟨by simp, by simp, ?_⟩
    intro hd
    constructor
    · rw [beq_eq_false_iff_ne]
      rcases hd with h1 | h1 <;> omega
    · rw [beq_eq_false_iff_ne]
      rcases hd with h1 | h1 <;> omega

theorem crossover_full_flip_only_witness :
    (goldenFlags [0, -1, 1])[0]? = some false ∧
    (deathFlags [0, -1, 1])[0]? = some false :=
  (crossover_full_flip_only [0, -1, 1] (by decide)).1 (by decide)

/-- C10: with signal values in {-1, 0, +1}, the golden-cross flag at index i ≥ 1
holds iff signal[i-1] = -1 and signal[i] = +1, the death-cross flag iff
signal[i-1] = +1 and signal[i] = -1, and the two flags are never simultaneously
true. -/
theorem crossover_characterization (signal : List Int)
    (hdom : ∀ s ∈ signal, s = -1 ∨ s = 0 ∨ s = 1) :
    ∀ i, i + 1 < signal.length →
      ((goldenFlags signal).getD (i + 1) false = true ↔
         (signal.getD i 0 = -1 ∧ signal.getD (i + 1) 0 = 1)) ∧
      ((deathFlags signal).getD (i + 1) false = true ↔
         (signal.getD i 0 = 1 ∧ signal.getD (i + 1) 0 = -1)) ∧
      ¬((goldenFlags signal).getD (i + 1) false = true ∧
        (deathFlags signal).getD (i + 1) false = true) := by
  intro i h
  have hprev := hdom _ (getD_mem_of_lt (show i < signal.length by omega))
  have hcur := hdom _ (getD_mem_of_lt (show i + 1 < signal.length by omega))
  rw [goldenFlags_getD signal i h, deathFlags_getD signal i h]
  simp only [beq_iff_eq]
  refine ⟨?_, ?_, ?_⟩ <;> omega

theorem crossover_characterization_witness :
    (goldenFlags [-1, 1]).getD 1 false = true := by
  have h := (crossover_characterization [-1, 1] (by decide) 0 (by decide)).1
  exact h.mpr (by decide)

theorem shift1_zero' (s : List Int) :
    (shift1 s)[0]? = if s.length = 0 then none else some none := by
  cases s with
  | nil => rfl
  | cons x xs => simp [shift1]

/-- C5: the strategy return applies a one-period-lagged signal: index 0 is
undefined, for i ≥ 1 the value is signal[i-1] times the return
close[i]/close[i-1] - 1, perturbing the signal at any index j changes the
strategy returns at index j+1 only, and perturbing the last signal changes
nothing at all. -/
theorem strategy_returns_lag (close : List ℚ) (signal : List Int)
    (hlen : signal.length = close.length) :
    (close ≠ [] → (strategyReturns close signal)[0]? = some none) ∧
    (∀ i, i + 1 < close.length →
      (strategyReturns close signal)[i + 1]? =
        some (some ((signal.getD i 0 : ℚ) *
          (close.getD (i + 1) 0 / close.getD i 0 - 1)))) ∧
    (∀ j v i, i ≠ j + 1 →
      (strategyReturns close (signal.set j v))[i]? =
        (strategyReturns close signal)[i]?) ∧
    (∀ v, strategyReturns close (signal.set (signal.length - 1) v) =
      strategyReturns close signal) := by
  have hset_len : ∀ (j : Nat) (v : Int), (signal.set j v).length = signal.length := by
    intro j v
    simp
  have hpoint : ∀ (j : Nat) (v : Int) (i : Nat), i ≠ j + 1 →
      (strategyReturns close (signal.set j v))[i]? =
        (strategyReturns close signal)[i]? := by
    intro j v i hne
    rw [strategyReturns_getElem?, strategyReturns_getElem?]
    cases i with
    | zero => rw [shift1_zero', shift1_zero', hset_len]
    | succ k =>
        rw [shift1_succ, shift1_succ, hset_len]
        have hk : k ≠ j := by omega
        by_cases hlt : k + 1 < signal.length
        · rw [if_pos hlt, if_pos hlt]
          have : (signal.set j v).getD k 0 = signal.getD k 0 := by
            rw [List.getD_eq_getElem?_getD, List.getD_eq_getElem?_getD,
              List.getElem?_set_ne (by omega : j ≠ k)]
          rw [this]
        · rw [if_neg hlt, if_neg hlt]
  refine ⟨?_, ?_, hpoint, ?_⟩
  · intro hne
    cases close with
    | nil => exact absurd rfl hne
    | cons c cs =>
        cases signal with
        | nil => simp at hlen
        | cons s ss =>
            obtain ⟨t, ht⟩ := strategyReturns_cons c cs s ss
            rw [ht]
            exact List.getElem?_cons_zero
  · intro i hi
    rw [strategyReturns_getElem?, shift1_succ, pctChange_succ,
      if_pos (by omega : i + 1 < signal.length), if_pos hi]
    rfl
  · intro v
    apply List.ext_getElem?
    intro i
    by_cases hi : i = signal.length - 1 + 1
    · subst hi
      have h1 : (strategyReturns close (signal.set (signal.length - 1) v)).length
          = min signal.length close.length := by
        rw [strategyReturns_length, hset_len]
      have h2 : (strategyReturns close signal).length
          = min signal.length close.length := strategyReturns_length close signal
      cases signal with
      | nil =>
          simp only [List.set_nil]
      | cons s ss =>
          rw [List.getElem?_eq_none, List.getElem?_eq_none]
          · rw [h2]
            simp only [List.length_cons, Nat.add_sub_cancel]
            omega
          · rw [h1]
            simp only [List.length_cons, Nat.add_sub_cancel]
            omega
    · exact hpoint (signal.length - 1) v i hi

theorem strategy_returns_lag_witness :
    (strategyReturns [10, 11] [1, -1])[0]? = some none :=
  (strategy_returns_lag [10, 11] [1, -1] (by decide)).1 (by decide)

theorem winRateSma_some (close : List ℚ) (signal : List Int) (hne : close ≠ [])
    (hlen : signal.length = close.length) :
    (strategyReturns close signal)[0]? = some none ∧
    0 < neZeroCount (strategyReturns close signal) ∧
    winRateSmaStyle (strategyReturns close signal) =
      some ((posCount (strategyReturns close signal) : ℚ) /
        (neZeroCount (strategyReturns close signal) : ℚ)) := by
  cases close with
  | nil => exact absurd rfl hne
  | cons c cs =>
      cases signal with
      | nil => simp at hlen
      | cons s ss =>
          obtain ⟨t, ht⟩ := strategyReturns_cons c cs s ss
          rw [ht]
          refine ⟨List.getElem?_cons_zero, ?_, ?_⟩
          · rw [neZeroCount_cons_none]
            omega
          · rw [winRateSmaStyle, if_neg (by rw [neZeroCount_cons_none]; omega)]

/-- C9: on any non-empty price frame the win-rate denominator
count(strategy_returns != 0) is at least 1, because the NaN strategy return at
index 0 compares not-equal to 0 and is counted; hence the unguarded division of
analyze_sma_performance never divides by zero on non-empty input, and undefined
entries inflate the denominator while never counting as wins. -/
theorem win_rate_denominator_positive (close : List ℚ) (signal : List Int)
    (hne : close ≠ []) (hlen : signal.length = close.length) :
    (strategyReturns close signal)[0]? = some none ∧
    0 < neZeroCount (strategyReturns close signal) ∧
    winRateSmaStyle (strategyReturns close signal) =
      some ((posCount (strategyReturns close signal) : ℚ) /
        (neZeroCount (strategyReturns close signal) : ℚ)) ∧
    (∀ xs : List (Option ℚ),
      neZeroCount (none :: xs) = neZeroCount xs + 1 ∧
      posCount (none :: xs) = posCount xs) := by
  obtain ⟨h1, h2, h3⟩ := winRateSma_some close signal hne hlen
  exact ⟨h1, h2, h3, fun xs => ⟨neZeroCount_cons_none xs, posCount_cons_none xs⟩⟩

theorem win_rate_denominator_positive_witness :
    0 < neZeroCount (strategyReturns [10, 11] [1, 0]) :=
  (win_rate_denominator_positive [10, 11] [1, 0] (by decide) (by decide)).2.1

theorem analyzeSmaPerformance_nil (shortC longC : List (Option ℚ)) :
    analyzeSmaPerformance [] shortC longC = none := by
  simp only [analyzeSmaPerformance]
  have hsr : strategyReturns [] (List.zipWith crossSignal shortC longC) = [] := by
    simp [strategyReturns, pctChange]
  rw [hsr]
  rfl

theorem analyzeEmaPerformance_nil (shortC longC : List (Option ℚ)) :
    analyzeEmaPerformance [] shortC longC = none := by
  simp only [analyzeEmaPerformance]
  have hsr : strategyReturns [] (List.zipWith crossSignal shortC longC) = [] := by
    simp [strategyReturns, pctChange]
  rw [hsr]
  rfl

theorem analyzeSmaPerformance_some (close : List ℚ)
    (shortC longC : List (Option ℚ)) (hne : close ≠ [])
    (hS : shortC.length = close.length) (hL : longC.length = close.length) :
    ∃ r, analyzeSmaPerformance close shortC longC = some r ∧
      r.win_rate =
        (posCount (strategyReturns close (List.zipWith crossSignal shortC longC)) : ℚ) /
        (neZeroCount (strategyReturns close (List.zipWith crossSignal shortC longC)) : ℚ) := by
  have hsiglen : (List.zipWith crossSignal shortC longC).length = close.length := by
    simp [hS, hL]
  have hsr := winRateSma_some close (List.zipWith crossSignal shortC longC) hne hsiglen
  have hsrne : strategyReturns close (List.zipWith crossSignal shortC longC) ≠ [] := by
    intro hcon
    rw [hcon] at hsr
    simp at hsr
  obtain ⟨tr, htr⟩ := totalReturn_isSome hsrne
  obtain ⟨c0, hc0⟩ : ∃ c0, close.head? = some c0 := by
    cases close with
    | nil => exact absurd rfl hne
    | cons c cs => exact ⟨c, rfl⟩
  obtain ⟨cL, hcL⟩ := Option.isSome_iff_exists.mp (List.getLast?_isSome.mpr hne)
  refine ⟨{ total_return := tr
            buy_hold_return := cL / c0 - 1
            golden_crosses :=
              (goldenFlags (List.zipWith crossSignal shortC longC)).count true
            death_crosses :=
              (deathFlags (List.zipWith crossSignal shortC longC)).count true
            win_rate :=
              (posCount (strategyReturns close
                (List.zipWith crossSignal shortC longC)) : ℚ) /
              (neZeroCount (strategyReturns close
                (List.zipWith crossSignal shortC longC)) : ℚ) }, ?_, rfl⟩
  simp only [analyzeSmaPerformance]
  rw [htr, hsr.2.2, hc0, hcL]

theorem analyzeEmaPerformance_some (close : List ℚ)
    (shortC longC : List (Option ℚ)) (hne : close ≠ [])
    (hS : shortC.length = close.length) (hL : longC.length = close.length) :
    ∃ r, analyzeEmaPerformance close shortC longC = some r ∧
      r.win_rate =
        (posCount (strategyReturns close (List.zipWith crossSignal shortC longC)) : ℚ) /
        (neZeroCount (strategyReturns close (List.zipWith crossSignal shortC longC)) : ℚ) := by
  have hsiglen : (List.zipWith crossSignal shortC longC).length = close.length := by
    simp [hS, hL]
  have hsr := winRateSma_some close (List.zipWith crossSignal shortC longC) hne hsiglen
  have hsrne : strategyReturns close (List.zipWith crossSignal shortC longC) ≠ [] := by
    intro hcon
    rw [hcon] at hsr
    simp at hsr
  obtain ⟨tr, htr⟩ := totalReturn_isSome hsrne
  obtain ⟨c0, hc0⟩ : ∃ c0, close.head? = some c0 := by
    cases close with
    | nil => exact absurd rfl hne
    | cons c cs => exact ⟨c, rfl⟩
  obtain ⟨cL, hcL⟩ := Option.isSome_iff_exists.mp (List.getLast?_isSome.mpr hne)
  have hwr : winRateEmaStyle (strategyReturns close
      (List.zipWith crossSignal shortC longC)) =
      (posCount (strategyReturns close
        (List.zipWith crossSignal shortC longC)) : ℚ) /
      (neZeroCount (strategyReturns close
        (List.zipWith crossSignal shortC longC)) : ℚ) := by
    rw [winRateEmaStyle, if_pos hsr.2.1]
  refine ⟨{ total_return := tr
            buy_hold_return := cL / c0 - 1
            golden_crosses :=
              (goldenFlags (List.zipWith crossSignal shortC longC)).count true
            death_crosses :=
              (deathFlags (List.zipWith crossSignal shortC longC)).count true
            strategy_volatility := annualizedVol (strategyReturns close
              (List.zipWith crossSignal shortC longC))
            buy_hold_volatility := annualizedVol (pctChange close)
            strategy_sharpe := sharpeRatio tr (annualizedVol (strategyReturns close
              (List.zipWith crossSignal shortC longC)))
            buy_hold_sharpe := sharpeRatio (some (cL / c0 - 1))
              (annualizedVol (pctChange close))
            win_rate :=
              (posCount (strategyReturns close
                (List.zipWith crossSignal shortC longC)) : ℚ) /
              (neZeroCount (strategyReturns close
                (List.zipWith crossSignal shortC longC)) : ℚ) }, ?_, rfl⟩
  simp only [analyzeEmaPerformance]
  rw [htr, hc0, hcL, hwr]

/-- C1: both performance analyses compute
win_rate = count(strategy_returns > 0) / count(strategy_returns != 0), and the
zero-denominator case arises only on an empty frame, where both operations fail
before the win-rate division (the .iloc of the total return raises IndexError):
the two operations behave identically there, so one policy — fail — is applied
uniformly. -/
theorem win_rate_policy_uniform (close : List ℚ)
    (shortS longS shortE longE : List (Option ℚ))
    (hS1 : shortS.length = close.length) (hS2 : longS.length = close.length)
    (hE1 : shortE.length = close.length) (hE2 : longE.length = close.length) :
    (close = [] → analyzeSmaPerformance close shortS longS = none ∧
       analyzeEmaPerformance close shortE longE = none) ∧
    (close ≠ [] → ∃ rS rE,
       analyzeSmaPerformance close shortS longS = some rS ∧
       analyzeEmaPerformance close shortE longE = some rE ∧
       rS.win_rate =
         (posCount (strategyReturns close (List.zipWith crossSignal shortS longS)) : ℚ) /
         (neZeroCount (strategyReturns close (List.zipWith crossSignal shortS longS)) : ℚ) ∧
       rE.win_rate =
         (posCount (strategyReturns close (List.zipWith crossSignal shortE longE)) : ℚ) /
         (neZeroCount (strategyReturns close (List.zipWith crossSignal shortE longE)) : ℚ) ∧
       0 < neZeroCount (strategyReturns close (List.zipWith crossSignal shortS longS)) ∧
       0 < neZeroCount (strategyReturns close (List.zipWith crossSignal shortE longE))) := by
  constructor
  · intro h
    subst h
    exact ⟨analyzeSmaPerformance_nil shortS longS,
      analyzeEmaPerformance_nil shortE longE⟩
  · intro hne
    obtain ⟨rS, hrS, hwS⟩ := analyzeSmaPerformance_some close shortS longS hne hS1 hS2
    obtain ⟨rE, hrE, hwE⟩ := analyzeEmaPerformance_some close shortE longE hne hE1 hE2
    have hdS := (winRateSma_some close (List.zipWith crossSignal shortS longS) hne
      (by simp [hS1, hS2])).2.1
    have hdE := (winRateSma_some close (List.zipWith crossSignal shortE longE) hne
      (by simp [hE1, hE2])).2.1
    exact ⟨rS, rE, hrS, hrE, hwS, hwE, hdS, hdE⟩

theorem win_rate_policy_uniform_witness :
    analyzeSmaPerformance [10, 11] [none, none] [none, none] ≠ none := by
  obtain ⟨-, h⟩ := win_rate_policy_uniform [10, 11] [none, none] [none, none]
    [none, none] [none, none] rfl rfl rfl rfl
  obtain ⟨rS, rE, h1, -⟩ := h (by decide)
  rw [h1]
  exact Option.some_ne_none rS

theorem sampleVar_const {xs : List ℚ} {c : ℚ} (hc : ∀ x ∈ xs, x = c)
    (hn : 2 ≤ xs.length) : sampleVar xs = some 0 := by
  have hlen0 : (xs.length : ℚ) ≠ 0 := Nat.cast_ne_zero.mpr (by omega)
  have hmean : meanQ xs = c := by
    rw [meanQ, List.sum_eq_card_nsmul xs c hc, nsmul_eq_mul, mul_comm,
      mul_div_assoc, div_self hlen0, mul_one]
  have hzero : (xs.map (fun x => (x - meanQ xs) ^ 2)).sum = 0 := by
    apply List.sum_eq_zero
    intro y hy
    obtain ⟨x, hx, rfl⟩ := List.mem_map.mp hy
    rw [hmean, hc x hx]
    ring
  rw [sampleVar, if_neg (by omega), hzero, zero_div]

/-- C6: the Sharpe ratio of the performance analyzer equals
(total_return * 252) / annualized_volatility whenever the volatility is a
nonzero value, and is exactly 0 when the volatility is exactly 0 — as happens
when all (at least two) defined strategy returns are identical; the
zero-volatility case takes the guarded branch instead of a division fault. -/
theorem sharpe_zero_volatility (sr : List (Option ℚ)) (tr c : ℚ)
    (hc : ∀ x ∈ definedVals sr, x = c) (hn : 2 ≤ (definedVals sr).length) :
    annualizedVol sr = some 0 ∧
    sharpeRatio (some tr) (annualizedVol sr) = some 0 ∧
    (∀ (sr2 : List (Option ℚ)) (v : ℝ) (t : ℚ),
       annualizedVol sr2 = some v → v ≠ 0 →
       sharpeRatio (some t) (annualizedVol sr2) = some (((t : ℝ) * 252) / v)) := by
  have h1 : annualizedVol sr = some 0 := by
    rw [annualizedVol, sampleVar_const hc hn]
    simp
  refine ⟨h1, ?_, ?_⟩
  · rw [h1]
    simp [sharpeRatio]
  · intro sr2 v t hv hvne
    rw [hv]
    simp [sharpeRatio, hvne]

theorem sharpe_zero_volatility_witness :
    sharpeRatio (some 5) (annualizedVol [some 1, none, some 1]) = some 0 :=
  (sharpe_zero_volatility [some 1, none, some 1] 5 1 (by decide) (by decide)).2.1

theorem lookupCol_setColList (m n : String) (v : List (Option ℚ)) (h : n ≠ m) :
    ∀ ps : List (String × List (Option ℚ)),
      lookupCol (setColList m v ps) n = lookupCol ps n
  | [] => by simp [setColList, lookupCol, Ne.symm h]
  | p :: ps => by
      by_cases hp : p.1 = m
      · simp [setColList, hp, lookupCol, Ne.symm h]
      · simp only [setColList, if_neg hp, lookupCol]
        by_cases hpn : p.1 = n
        · simp [hpn]
        · simp only [if_neg hpn]
          exact lookupCol_setColList m n v h ps

theorem getCol_setCol_ne (f : Frame) (m n : String) (v : List (Option ℚ))
    (h : n ≠ m) : (f.setCol m v).getCol n = f.getCol n := by
  simp only [Frame.setCol, Frame.getCol]
  exact lookupCol_setColList m n v h f.cols

/-- C4 fails as stated: compare_ema_vs_sma mutates the DataFrame passed to it —
on a two-row frame with no derived columns, the frame after the call differs
from the frame before it (seven columns have been written in place). -/
theorem compare_mutates_input :
    compareEmaVsSmaFrame { close := [10, 11], cols := [] } 2 2 ≠
      { close := [10, 11], cols := [] } := by
  intro h
  have hlen : (compareEmaVsSmaFrame { close := [10, 11], cols := [] } 2 2).cols.length
      = 0 := by rw [h]; rfl
  have hlen7 : (compareEmaVsSmaFrame { close := [10, 11], cols := [] } 2 2).cols.length
      = 7 := rfl
  rw [hlen7] at hlen
  exact absurd hlen (by decide)

/-- C4 amended: compare_ema_vs_sma does mutate the table passed to it, writing
its seven indicator/signal/return columns in place, but it leaves the Close
price column and every other column unchanged, so both of its internal
pipelines observe identical, uncorrupted price data; the other engine
operations copy their input frame before writing. -/
theorem compare_writes_only_its_columns (f : Frame) (eW sW : Int) :
    (compareEmaVsSmaFrame f eW sW).close = f.close ∧
    (∀ n : String,
      n ∉ ["EMA_" ++ toString eW, "SMA_" ++ toString sW, "EMA_Signal",
        "SMA_Signal", "Returns", "EMA_Returns", "SMA_Returns"] →
      (compareEmaVsSmaFrame f eW sW).getCol n = f.getCol n) := by
  constructor
  · unfold compareEmaVsSmaFrame
    split
    · rfl
    · split
      · rfl
      · rfl
  · intro n hn
    simp only [List.mem_cons, List.not_mem_nil, or_false, not_or] at hn
    obtain ⟨hn1, hn2, hn3, hn4, hn5, hn6, hn7⟩ := hn
    unfold compareEmaVsSmaFrame
    split
    · rfl
    · split
      · exact getCol_setCol_ne _ _ _ _ hn1
      · rw [getCol_setCol_ne _ _ _ _ hn7, getCol_setCol_ne _ _ _ _ hn6,
          getCol_setCol_ne _ _ _ _ hn5, getCol_setCol_ne _ _ _ _ hn4,
          getCol_setCol_ne _ _ _ _ hn3, getCol_setCol_ne _ _ _ _ hn2,
          getCol_setCol_ne _ _ _ _ hn1]

theorem compare_writes_only_its_columns_witness :
    (compareEmaVsSmaFrame { close := [10, 11], cols := [] } 2 2).getCol "Volume" =
      Frame.getCol { close := [10, 11], cols := [] } "Volume" :=
  (compare_writes_only_its_columns { close := [10, 11], cols := [] } 2 2).2
    "Volume" (by decide)

end Trading
